import Mathlib

/-!
Verification development for the marimo-observability repository.

Three components are modelled:

1. The typed payload parser (parse_raw). Its implementation
   (marimo/_utils/parse_dataclass.py) is not vendored in this snapshot —
   only its test suite (tests/_utils/test_parse_dataclass.py) is — so the
   parser is modelled from the specification (spec.md sections 3, 4.1, 7, 8)
   with every behavioural choice the spec leaves open pinned by the
   vendored tests.  Decoded JSON payloads are represented by an explicit
   JSON value type; record type descriptors are a deep embedding of the
   schema language the spec describes.

2. The Grafana dashboard embedder (marimo/_observability/grafana.py),
   translated from the source, with the mutable default argument of
   grafana_dashboard modelled as explicit state passed in and out.

3. The error-handling paths of promql (marimo/_observability/promql.py)
   and logql (marimo/_observability/logql.py), translated from the source.
-/

set_option autoImplicit false

namespace MarimoObs

/-! ### Decoded JSON values

A JSON value as produced by json.loads: strings, ints, floats, booleans,
null, arrays and string-keyed objects.  The array and object spines are
their own inductives so that every function below is plain structural
recursion (and therefore evaluates by kernel reduction). -/

mutual

inductive JsonValue where
  | jStr (s : String)
  | jInt (n : Int)
  | jFloat (q : Rat)
  | jBool (b : Bool)
  | jNull
  | jArr (xs : JsonElems)
  | jObj (kvs : JsonEntries)

inductive JsonElems where
  | nil
  | cons (v : JsonValue) (rest : JsonElems)

inductive JsonEntries where
  | nil
  | cons (k : String) (v : JsonValue) (rest : JsonEntries)

end

/-- Python type name of a decoded JSON value, as type(x).__name__ reports it. -/
def typeName : JsonValue → String
  | .jStr _ => "str"
  | .jInt _ => "int"
  | .jFloat _ => "float"
  | .jBool _ => "bool"
  | .jNull => "NoneType"
  | .jArr _ => "list"
  | .jObj _ => "dict"

/-- Whether a decoded JSON value is a mapping (a Python dict). -/
def isObj : JsonValue → Bool
  | .jObj _ => true
  | _ => false

mutual

/-- Display form of a JSON value, used inside error messages. -/
def renderJson : JsonValue → String
  | .jStr s => "'" ++ s ++ "'"
  | .jInt n => toString n
  | .jFloat q => toString q
  | .jBool b => if b then "True" else "False"
  | .jNull => "None"
  | .jArr xs => "[" ++ renderElems xs ++ "]"
  | .jObj kvs => "\x7b" ++ renderEntries kvs ++ "\x7d"

def renderElems : JsonElems → String
  | .nil => ""
  | .cons v .nil => renderJson v
  | .cons v rest => renderJson v ++ ", " ++ renderElems rest

def renderEntries : JsonEntries → String
  | .nil => ""
  | .cons k v .nil => "'" ++ k ++ "': " ++ renderJson v
  | .cons k v rest => "'" ++ k ++ "': " ++ renderJson v ++ ", " ++ renderEntries rest

end

/-- First value stored under an exactly matching key, mirroring a Python
dict lookup on a mapping held as an insertion-ordered entry list. -/
def lookupExact (k : String) : JsonEntries → Option JsonValue
  | .nil => none
  | .cons k2 v rest => if k2 == k then some v else lookupExact k rest

/-- Lower-cased copy of a string (ASCII case folding, as str.lower does
for the identifier characters appearing in field names). -/
def lowerStr (s : String) : String := String.mk (s.data.map Char.toLower)

/-- First value whose key lower-cases to the given (already lowered) target. -/
def lookupLowerEq (target : String) : JsonEntries → Option JsonValue
  | .nil => none
  | .cons k2 v rest => if lowerStr k2 == target then some v else lookupLowerEq target rest

/-- Characters of the PascalCase rendering of a snake_case name: underscores
are dropped and every character following a word boundary is upper-cased. -/
def pascalChars : Bool → List Char → List Char
  | _, [] => []
  | up, c :: cs =>
    if c = '_' then pascalChars true cs
    else (if up then c.toUpper else c) :: pascalChars false cs

/-- PascalCase rendering of a snake_case field name (my_variable ↦ MyVariable). -/
def snakeToPascal (s : String) : String := String.mk (pascalChars true s.data)

/-- Modelled from the spec (section 4.1, field resolution): a payload key
matches a declared field when it equals the field name exactly, or when it
equals the PascalCase rendering of the field name up to case. -/
def keyMatches (k fname : String) : Bool :=
  k == fname || lowerStr k == lowerStr (snakeToPascal fname)

/-- Modelled from the spec (section 4.1, field resolution): look a field up
in the payload by exact name first, then by a case-insensitive match
against the PascalCase rendering of the field name. -/
def lookupField (fname : String) (kvs : JsonEntries) : Option JsonValue :=
  match lookupExact fname kvs with
  | some v => some v
  | none => lookupLowerEq (lowerStr (snakeToPascal fname)) kvs

/-! ### Parsed instances

The values produced by the parser: primitives, the no-value state of an
optional, enum constants (the named constant, identified by enumeration
and constant name, never the raw backing value), sequences, tuples,
string-keyed mappings and record instances. -/

mutual

inductive Value where
  | vStr (s : String)
  | vInt (n : Int)
  | vFloat (q : Rat)
  | vBool (b : Bool)
  | vNone
  | vEnum (ename cname : String)
  | vList (xs : Values)
  | vTuple (xs : Values)
  | vDict (es : VEntries)
  | vRecord (name : String) (fields : VEntries)

inductive Values where
  | nil
  | cons (v : Value) (rest : Values)

inductive VEntries where
  | nil
  | cons (k : String) (v : Value) (rest : VEntries)

end

/-- Primitive backing value of an enumeration constant or of a literal type. -/
inductive Prim where
  | pStr (s : String)
  | pInt (n : Int)
  | pFloat (q : Rat)
  | pBool (b : Bool)
deriving DecidableEq

/-- Whether a JSON value equals a primitive backing value. -/
def primEqJson : Prim → JsonValue → Bool
  | .pStr s, .jStr s2 => s == s2
  | .pInt n, .jInt n2 => n == n2
  | .pFloat q, .jFloat q2 => q == q2
  | .pBool b, .jBool b2 => b == b2
  | _, _ => false

/-- Display form of a primitive backing value. -/
def renderPrim : Prim → String
  | .pStr s => "'" ++ s ++ "'"
  | .pInt n => toString n
  | .pFloat q => toString q
  | .pBool b => if b then "True" else "False"

/-! ### Record type descriptors

Modelled from the spec (section 3, data model): a declared type expression
is primitive, a record type, an enumeration, a literal (a single constant
drawn from an enumeration, used as a union discriminator), an optional
wrapper, a union, a homogeneous sequence, a fixed-arity tuple, a
variable-arity homogeneous tuple, or a string-keyed mapping.  A record
type is a name plus an ordered field list; each field carries its name,
declared type and optional default. -/

mutual

inductive TypeExpr where
  | tStr
  | tInt
  | tFloat
  | tBool
  | tRecord (name : String) (fields : Fields)
  | tEnum (ename : String) (constants : List (String × Prim))
  | tLiteral (ename cname : String) (backing : Prim)
  | tOptional (t : TypeExpr)
  | tUnion (alts : Alts)
  | tList (t : TypeExpr)
  | tTupleFixed (ts : Alts)
  | tTupleVar (t : TypeExpr)
  | tDict (t : TypeExpr)

inductive Fields where
  | nil
  | cons (fname : String) (ftype : TypeExpr) (fdefault : Option Value) (rest : Fields)

inductive Alts where
  | nil
  | cons (t : TypeExpr) (rest : Alts)

end

/-! ### Errors

Modelled from the spec (section 7, error taxonomy), plus the unknown-keys
rejection the vendored tests pin down (test_with_unknown_keys passes
allow_unknown_keys=True to make an unknown key tolerated, and test_unions
relies on the extra key of a sibling alternative being rejected). -/

inductive ParseError where
  | notAMapping (path : String) (received : JsonValue)
  | missingRequiredField (path fname target : String)
  | typeMismatch (path expected : String) (received : JsonValue)
  | invalidEnumValue (path : String) (received : JsonValue) (accepted : List Prim)
  | invalidDiscriminator (path dfield : String) (received : JsonValue) (valid : List Prim)
  | unionMismatch (path : String) (alternatives : List String) (received : JsonValue)
  | tupleArityMismatch (path : String) (expected got : Nat)
  | unknownKeys (path : String) (keys : List String) (target : String)

/-- Comma-joined rendering of a list of strings. -/
def joinComma : List String → String
  | [] => ""
  | [x] => x
  | x :: xs => x ++ ", " ++ joinComma xs

/-- Human-readable message of a parse error; each message carries the field
path and the offending values, as the spec requires of every error kind.
The concatenations are grouped to the right so that the message provably
decomposes around the rendered offending value. -/
def errMsg : ParseError → String
  | .notAMapping p v =>
    "invalid payload at '" ++ (p ++ ("': value " ++ (renderJson v ++ (" of type " ++
      (typeName v ++ " needs to be a dictionary")))))
  | .missingRequiredField p f target =>
    "missing required field '" ++ (f ++ ("' (at '" ++ (p ++ ("') of " ++ target))))
  | .typeMismatch p expected v =>
    "type mismatch at '" ++ (p ++ ("': expected " ++ (expected ++ (", got " ++ renderJson v))))
  | .invalidEnumValue p v accepted =>
    "invalid enum value " ++ (renderJson v ++ (" at '" ++ (p ++ ("'; accepted values: " ++
      joinComma (accepted.map renderPrim)))))
  | .invalidDiscriminator p d v valid =>
    "invalid discriminator value " ++ (renderJson v ++ (" for field '" ++ (d ++ ("' at '" ++
      (p ++ ("'; valid values: " ++ joinComma (valid.map renderPrim)))))))
  | .unionMismatch p alternatives v =>
    "value " ++ (renderJson v ++ (" at '" ++ (p ++ ("' does not match any alternative of Union[" ++
      (joinComma alternatives ++ "]")))))
  | .tupleArityMismatch p expected got =>
    "tuple at '" ++ (p ++ ("' expected " ++ (toString expected ++ (" elements, got " ++
      toString got))))
  | .unknownKeys p keys target =>
    "unknown keys \x7b" ++ (joinComma (keys.map (fun k => "'" ++ k ++ "'")) ++
      ("\x7d at '" ++ (p ++ ("' for " ++ target))))

/-- Dotted path of a record field below a parent path. -/
def childPath (p f : String) : String := if p == "" then f else p ++ "." ++ f

/-- Indexed path of a sequence element below a parent path. -/
def idxPath (p : String) (i : Nat) : String := p ++ "[" ++ toString i ++ "]"

/-! ### Union and enumeration helpers -/

/-- First enumeration constant whose backing primitive equals the value. -/
def findEnumConst (v : JsonValue) : List (String × Prim) → Option String
  | [] => none
  | (c, b) :: rest => if primEqJson b v then some c else findEnumConst v rest

/-- Name of the first field declared with a literal type, if any. -/
def firstLiteralField : Fields → Option String
  | .nil => none
  | .cons f t _ rest =>
    match t with
    | .tLiteral _ _ _ => some f
    | _ => firstLiteralField rest

/-- Backing primitive of the literal-typed field of the given name, if any. -/
def fieldsLiteralAt (dfield : String) : Fields → Option Prim
  | .nil => none
  | .cons f t _ rest =>
    if f == dfield then
      match t with
      | .tLiteral _ _ b => some b
      | _ => none
    else fieldsLiteralAt dfield rest

/-- Literal backing an alternative declares at the discriminator field:
some value only when the alternative is a record type declaring a
literal-typed field of that name. -/
def literalBackingAt (dfield : String) : TypeExpr → Option Prim
  | .tRecord _ fs => fieldsLiteralAt dfield fs
  | _ => none

/-- Whether every alternative declares a literal at the discriminator field. -/
def allHaveLiteralAt (dfield : String) : Alts → Bool
  | .nil => true
  | .cons a rest => (literalBackingAt dfield a).isSome && allHaveLiteralAt dfield rest

/-- Modelled from the spec (section 4.1, discriminated unions): a union is
discriminated when every alternative record type declares a field whose
type is a single literal constant; the shared field name is taken from the
first alternative's first literal-typed field. -/
def discriminatorField : Alts → Option String
  | .nil => none
  | .cons a rest =>
    match a with
    | .tRecord _ fs =>
      match firstLiteralField fs with
      | some f =>
        if (fieldsLiteralAt f fs).isSome && allHaveLiteralAt f rest then some f else none
      | none => none
    | _ => none

/-- Backing primitives of all alternatives at the discriminator field, the
valid discriminator set reported by an invalid-discriminator error. -/
def validBackings (dfield : String) : Alts → List Prim
  | .nil => []
  | .cons a rest =>
    match literalBackingAt dfield a with
    | some b => b :: validBackings dfield rest
    | none => validBackings dfield rest

/-- Whether the payload's discriminator value selects this alternative. -/
def matchesDiscrim (dfield : String) (dval : JsonValue) (a : TypeExpr) : Bool :=
  match literalBackingAt dfield a with
  | some b => primEqJson b dval
  | none => false

/-- Short display name of an alternative, used in union-mismatch errors. -/
def altName : TypeExpr → String
  | .tStr => "str"
  | .tInt => "int"
  | .tFloat => "float"
  | .tBool => "bool"
  | .tRecord n _ => n
  | .tEnum n _ => n
  | .tLiteral n c _ => "Literal[" ++ n ++ "." ++ c ++ "]"
  | .tOptional _ => "Optional"
  | .tUnion _ => "Union"
  | .tList _ => "list"
  | .tTupleFixed _ => "tuple"
  | .tTupleVar _ => "tuple"
  | .tDict _ => "dict"

/-- Display names of all alternatives of a union. -/
def altNames : Alts → List String
  | .nil => []
  | .cons a rest => altName a :: altNames rest

/-- Number of alternatives (the declared arity of a fixed tuple type). -/
def altsLen : Alts → Nat
  | .nil => 0
  | .cons _ rest => altsLen rest + 1

/-- Number of elements of a JSON array. -/
def elemsLen : JsonElems → Nat
  | .nil => 0
  | .cons _ rest => elemsLen rest + 1

/-! ### Unknown-key bookkeeping

Modelled from the spec (section 4.1, unknown keys) with the default pinned
by the vendored tests: a key is known when it matches some declared field
(exactly or through the PascalCase rendering); with allow_unknown_keys
left false, a payload carrying unknown keys is rejected. -/

/-- Whether a payload key matches some declared field. -/
def keyKnownB (k : String) : Fields → Bool
  | .nil => false
  | .cons f _ _ rest => keyMatches k f || keyKnownB k rest

/-- Payload keys matching no declared field, in payload order. -/
def unknownKeysOf (tfs : Fields) : JsonEntries → List String
  | .nil => []
  | .cons k _ rest =>
    if keyKnownB k tfs then unknownKeysOf tfs rest else k :: unknownKeysOf tfs rest

/-! ### Element-wise helpers

These take the element parser as a function argument so that the mutual
parser below stays structurally recursive on the type descriptor. -/

/-- Parse every element of a JSON array, threading the element index. -/
def parseElems (f : Nat → JsonValue → Except ParseError Value) :
    Nat → JsonElems → Except ParseError Values
  | _, .nil => .ok .nil
  | i, .cons x xs => do
    let v ← f i x
    let vs ← parseElems f (i + 1) xs
    .ok (.cons v vs)

/-- Parse every value of a JSON object, keeping the keys verbatim. -/
def parseDictVals (f : String → JsonValue → Except ParseError Value) :
    JsonEntries → Except ParseError VEntries
  | .nil => .ok .nil
  | .cons k x rest => do
    let v ← f k x
    let vs ← parseDictVals f rest
    .ok (.cons k v vs)

/-! ### The parser

Modelled from the spec: parse_raw (marimo/_utils/parse_dataclass.py, not
vendored in this snapshot) converts a decoded payload into an instance of
a record type, recursively coercing nested structures (spec section 4.1).
JSON text decoding of a byte-string payload is outside this model: the
payload arrives as an already decoded JsonValue. -/

mutual

/-- Per-field coercion, applied recursively according to the declared type
(spec section 4.1): primitives with int-to-float widening, nested records
(propagating the unknown-keys policy), enumerations producing named
constants, literals, optionals, discriminated unions by direct dispatch,
plain unions by ordered trial, sequences, fixed and variable tuples, and
string-keyed mappings. -/
def parseValue (allow : Bool) (path : String) : TypeExpr → JsonValue → Except ParseError Value
  | .tStr, v =>
    match v with
    | .jStr s => .ok (.vStr s)
    | u => .error (.typeMismatch path "str" u)
  | .tInt, v =>
    match v with
    | .jInt n => .ok (.vInt n)
    | u => .error (.typeMismatch path "int" u)
  | .tFloat, v =>
    match v with
    | .jFloat q => .ok (.vFloat q)
    | .jInt n => .ok (.vInt n)
    | u => .error (.typeMismatch path "float" u)
  | .tBool, v =>
    match v with
    | .jBool b => .ok (.vBool b)
    | u => .error (.typeMismatch path "bool" u)
  | .tRecord name fs, v =>
    match v with
    | .jObj kvs =>
      (parseFields allow path name fs kvs).bind (fun flds =>
        if allow then .ok (.vRecord name flds)
        else
          match unknownKeysOf fs kvs with
          | [] => .ok (.vRecord name flds)
          | ks => .error (.unknownKeys path ks name))
    | u => .error (.notAMapping path u)
  | .tEnum ename constants, v =>
    match findEnumConst v constants with
    | some c => .ok (.vEnum ename c)
    | none => .error (.invalidEnumValue path v (constants.map Prod.snd))
  | .tLiteral ename cname b, v =>
    if primEqJson b v then .ok (.vEnum ename cname)
    else .error (.typeMismatch path ("Literal[" ++ ename ++ "." ++ cname ++ "]") v)
  | .tOptional t, v =>
    match v with
    | .jNull => .ok .vNone
    | u => parseValue allow path t u
  | .tUnion alts, v =>
    match discriminatorField alts with
    | some dfield =>
      let dval :=
        match v with
        | .jObj kvs => (lookupExact dfield kvs).getD .jNull
        | _ => .jNull
      dispatchDiscrim (.invalidDiscriminator path dfield dval (validBackings dfield alts))
        allow path dfield dval alts v
    | none => tryAlts (.unionMismatch path (altNames alts) v) allow path alts v
  | .tList t, v =>
    match v with
    | .jArr xs => (parseElems (fun i u => parseValue allow (idxPath path i) t u) 0 xs).map .vList
    | u => .error (.typeMismatch path "list" u)
  | .tTupleFixed ts, v =>
    match v with
    | .jArr xs =>
      if altsLen ts == elemsLen xs then (parseFixed allow path 0 ts xs).map .vTuple
      else .error (.tupleArityMismatch path (altsLen ts) (elemsLen xs))
    | u => .error (.typeMismatch path "tuple" u)
  | .tTupleVar t, v =>
    match v with
    | .jArr xs => (parseElems (fun i u => parseValue allow (idxPath path i) t u) 0 xs).map .vTuple
    | u => .error (.typeMismatch path "tuple" u)
  | .tDict t, v =>
    match v with
    | .jObj kvs => (parseDictVals (fun k u => parseValue allow (childPath path k) t u) kvs).map .vDict
    | u => .error (.typeMismatch path "dict" u)

/-- Field resolution (spec section 4.1): each declared field is looked up
by exact name, then by the case-insensitive PascalCase rendering; a
missing key falls back to the field's default, and a missing key with no
default is a missing-required-field error naming the field and target. -/
def parseFields (allow : Bool) (path name : String) : Fields → JsonEntries → Except ParseError VEntries
  | .nil, _ => .ok .nil
  | .cons f t dflt rest, kvs =>
    match lookupField f kvs with
    | some u => do
      let v ← parseValue allow (childPath path f) t u
      let vs ← parseFields allow path name rest kvs
      .ok (.cons f v vs)
    | none =>
      match dflt with
      | some d => (parseFields allow path name rest kvs).map (.cons f d)
      | none => .error (.missingRequiredField (childPath path f) f name)

/-- Plain-union resolution (spec section 4.1): try each alternative in
declared order, accept the first success, and report the prepared
union-mismatch error when every alternative fails. -/
def tryAlts (e : ParseError) (allow : Bool) (path : String) : Alts → JsonValue → Except ParseError Value
  | .nil, _ => .error e
  | .cons a rest, v =>
    match parseValue allow path a v with
    | .ok r => .ok r
    | .error _ => tryAlts e allow path rest v

/-- Discriminated-union dispatch (spec section 4.1): select the alternative
whose literal equals the payload's discriminator value — no trial parsing
— and report the prepared invalid-discriminator error when none matches. -/
def dispatchDiscrim (e : ParseError) (allow : Bool) (path dfield : String) (dval : JsonValue) :
    Alts → JsonValue → Except ParseError Value
  | .nil, _ => .error e
  | .cons a rest, v =>
    if matchesDiscrim dfield dval a then parseValue allow path a v
    else dispatchDiscrim e allow path dfield dval rest v

/-- Positional parsing of a fixed-arity tuple; the caller has already
checked the arity. -/
def parseFixed (allow : Bool) (path : String) (i : Nat) : Alts → JsonElems → Except ParseError Values
  | .nil, _ => .ok .nil
  | .cons _ _, .nil => .ok .nil
  | .cons t ts, .cons x xs => do
    let v ← parseValue allow (idxPath path i) t x
    let vs ← parseFixed allow path (i + 1) ts xs
    .ok (.cons v vs)

end

/-- Modelled from the spec: the public operation parse(payload,
target_type, allow_unknown_keys) of parse_raw.  A payload that is not a
mapping fails with the not-a-dictionary error; otherwise the payload is
parsed against the record type given by its name and field list. -/
def parse (name : String) (fields : Fields) (payload : JsonValue) (allow : Bool) :
    Except ParseError Value :=
  parseValue allow "" (.tRecord name fields) payload

/-! ### Serialization and shape conformance

Modelled from the tests (serialize = json.dumps ∘ asdict): records and
string-keyed mappings become JSON objects, sequences and tuples become
JSON arrays, primitives map to their JSON counterparts.  Enum instances
are not JSON-serializable (json.dumps raises on them), so serialize maps
them to null; conformsB below excludes them, keeping the round-trip
theorem inside the serializable fragment. -/

mutual

def serialize : Value → JsonValue
  | .vStr s => .jStr s
  | .vInt n => .jInt n
  | .vFloat q => .jFloat q
  | .vBool b => .jBool b
  | .vNone => .jNull
  | .vEnum _ _ => .jNull
  | .vList xs => .jArr (serializeValues xs)
  | .vTuple xs => .jArr (serializeValues xs)
  | .vDict es => .jObj (serializeEntries es)
  | .vRecord _ fs => .jObj (serializeEntries fs)

def serializeValues : Values → JsonElems
  | .nil => .nil
  | .cons v rest => .cons (serialize v) (serializeValues rest)

def serializeEntries : VEntries → JsonEntries
  | .nil => .nil
  | .cons k v rest => .cons k (serialize v) (serializeEntries rest)

end

/-- Membership test on a list of strings, written recursively so that it
evaluates by kernel reduction. -/
def strElem (x : String) : List String → Bool
  | [] => false
  | y :: ys => x == y || strElem x ys

/-- Whether a list of field names is duplicate-free (dataclass field names
always are). -/
def nodupKeys : List String → Bool
  | [] => true
  | x :: xs => !(strElem x xs) && nodupKeys xs

/-- Declared field names of a record type, in declaration order. -/
def fieldNames : Fields → List String
  | .nil => []
  | .cons f _ _ rest => f :: fieldNames rest

/-- Keys of a record instance or mapping value, in order. -/
def ventNames : VEntries → List String
  | .nil => []
  | .cons k _ rest => k :: ventNames rest

mutual

/-- Shape conformance of an instance against a type expression, covering
the serializable fragment the round-trip claim quantifies over: primitives
(with an int permitted at a float field), records with duplicate-free
field names, sequences, fixed and variable tuples and string-keyed
mappings of conformant values. -/
def conformsB : Value → TypeExpr → Bool
  | .vStr _, .tStr => true
  | .vInt _, .tInt => true
  | .vInt _, .tFloat => true
  | .vFloat _, .tFloat => true
  | .vBool _, .tBool => true
  | .vRecord n fs, .tRecord n2 tfs =>
    n == n2 && nodupKeys (fieldNames tfs) && conformsFieldsB fs tfs
  | .vList xs, .tList t => conformsValuesB xs t
  | .vTuple xs, .tTupleVar t => conformsValuesB xs t
  | .vTuple xs, .tTupleFixed ts => conformsTupleB xs ts
  | .vDict es, .tDict t => conformsEntriesB es t
  | _, _ => false

def conformsFieldsB : VEntries → Fields → Bool
  | .nil, .nil => true
  | .cons k v vrest, .cons f t _ frest => k == f && conformsB v t && conformsFieldsB vrest frest
  | _, _ => false

def conformsValuesB : Values → TypeExpr → Bool
  | .nil, _ => true
  | .cons v rest, t => conformsB v t && conformsValuesB rest t

def conformsTupleB : Values → Alts → Bool
  | .nil, .nil => true
  | .cons v vrest, .cons t trest => conformsB v t && conformsTupleB vrest trest
  | _, _ => false

def conformsEntriesB : VEntries → TypeExpr → Bool
  | .nil, _ => true
  | .cons _ v rest, t => conformsB v t && conformsEntriesB rest t

end

/-! ### Grafana dashboard embedding (marimo/_observability/grafana.py)

Translated from the source.  Python dicts are modelled as
insertion-ordered association lists with overwrite-in-place assignment.
The mutable dictionary that is the default value of the variables
parameter is shared across every call that omits the argument, so
grafana_dashboard is modelled as a state-passing function: it receives
the current contents of that shared default dictionary and returns the
contents after the call. -/

/-- Whitespace characters recognised by str.strip and by the regex class \s. -/
def isWsChar (c : Char) : Bool :=
  c == ' ' || c == '\t' || c == '\n' || c == '\r' || c == '\x0b' || c == '\x0c'

/-- Python str.strip(): remove leading and trailing whitespace. -/
def pyStrip (s : String) : String :=
  String.mk (((s.data.dropWhile isWsChar).reverse.dropWhile isWsChar).reverse)

/-- Characters admitted by the metadata-key class [a-zA-Z_-]. -/
def isMetaKeyChar (c : Char) : Bool :=
  (c ≥ 'a' && c ≤ 'z') || (c ≥ 'A' && c ≤ 'Z') || c == '_' || c == '-'

/-- Match of the metadata-comment pattern on one (stripped) line, mirroring
re.match of #\s*@([a-zA-Z_-]+):\s*(.+)$ followed by value.strip(). -/
def lineMeta (line : String) : Option (String × String) :=
  match (pyStrip line).data with
  | '#' :: rest =>
    match rest.dropWhile isWsChar with
    | '@' :: rest2 =>
      let key := rest2.takeWhile isMetaKeyChar
      if key.isEmpty then none
      else
        match rest2.dropWhile isMetaKeyChar with
        | ':' :: rest3 =>
          let val := rest3.dropWhile isWsChar
          if val.isEmpty then none
          else some (String.mk key, pyStrip (String.mk val))
        | _ => none
    | _ => none
  | _ => none

/-- Python str.split on a newline, preserving empty pieces. -/
def splitLinesAux : List Char → List Char → List String
  | acc, [] => [String.mk acc.reverse]
  | acc, c :: cs =>
    if c = '\n' then String.mk acc.reverse :: splitLinesAux [] cs
    else splitLinesAux (c :: acc) cs

/-- Lines of a string, as content.split of a newline produces them. -/
def splitLines (s : String) : List String := splitLinesAux [] s.data

/-- Python dict assignment d[k] = v on an insertion-ordered entry list:
overwrite in place when the key exists, append otherwise. -/
def dictInsert (d : List (String × String)) (k v : String) : List (String × String) :=
  if d.any (fun p => p.1 == k) then d.map (fun p => if p.1 == k then (k, v) else p)
  else d ++ [(k, v)]

/-- Python dict.get on an insertion-ordered entry list. -/
def dictGet (d : List (String × String)) (k : String) : Option String :=
  (d.find? (fun p => p.1 == k)).map Prod.snd

/-- Metadata extracted from comment lines of the form # @key: value
(_extract_metadata_from_comments in grafana.py). -/
def extractMetadata (content : String) : List (String × String) :=
  (splitLines content).foldl
    (fun md line =>
      match lineMeta line with
      | some kv => dictInsert md kv.1 kv.2
      | none => md)
    []

/-- Whether the first string is a prefix of the second, written over the
character lists so that it evaluates by kernel reduction (str.startswith). -/
def strStarts : List Char → List Char → Bool
  | [], _ => true
  | _ :: _, [] => false
  | c :: cs, d :: ds => c == d && strStarts cs ds

/-- Python str.rstrip of a slash, as applied to the Grafana base URL. -/
def rstripSlash (s : String) : String :=
  String.mk ((s.data.reverse.dropWhile (fun c => c = '/')).reverse)

/-- Uppercase hexadecimal digit of a number below 16. -/
def hexDigit (n : Nat) : Char :=
  if n < 10 then Char.ofNat (48 + n) else Char.ofNat (55 + n)

/-- UTF-8 bytes of a code point, for percent-encoding non-ASCII characters. -/
def utf8Bytes (n : Nat) : List Nat :=
  if n < 128 then [n]
  else if n < 2048 then [192 + n / 64, 128 + n % 64]
  else if n < 65536 then [224 + n / 4096, 128 + (n / 64) % 64, 128 + n % 64]
  else [240 + n / 262144, 128 + (n / 4096) % 64, 128 + (n / 64) % 64, 128 + n % 64]

/-- Characters urllib.parse.quote_plus leaves unencoded. -/
def isUrlSafe (c : Char) : Bool :=
  (c ≥ 'a' && c ≤ 'z') || (c ≥ 'A' && c ≤ 'Z') || (c ≥ '0' && c ≤ '9') ||
    c == '_' || c == '.' || c == '-' || c == '~'

/-- Percent-encoding of one byte. -/
def pctByte (b : Nat) : List Char := ['%', hexDigit (b / 16), hexDigit (b % 16)]

/-- urllib.parse.quote_plus: safe characters kept, space becomes a plus,
everything else percent-encoded byte by byte. -/
def quotePlus (s : String) : String :=
  String.mk (s.data.flatMap (fun c =>
    if isUrlSafe c then [c]
    else if c = ' ' then ['+']
    else (utf8Bytes c.toNat).flatMap pctByte))

/-- Ampersand-joined rendering of encoded query parameters. -/
def joinAmp : List String → String
  | [] => ""
  | [x] => x
  | x :: xs => x ++ "&" ++ joinAmp xs

/-- urllib.parse.urlencode over an insertion-ordered parameter list. -/
def urlencode (params : List (String × String)) : String :=
  joinAmp (params.map (fun p => quotePlus p.1 ++ "=" ++ quotePlus p.2))

/-- Arguments of grafana_dashboard; varsArg is the variables parameter.  A
varsArg value of none models the variables argument being omitted, in which case the call operates on the shared
default dictionary. -/
structure GrafanaArgs where
  content : String
  url : Option String
  dashboard : Option String
  fromTime : Option String
  toTime : Option String
  theme : String
  varsArg : Option (List (String × String))
  height : String
  width : String
  refresh : String

/-- Arguments with every parameter at its declared default and the given
content, mirroring a call grafana_dashboard(content). -/
def grafanaDefaults (content : String) : GrafanaArgs :=
  { content := content, url := none, dashboard := none, fromTime := none,
    toTime := none, theme := "light", varsArg := none, height := "500px",
    width := "100%", refresh := "off" }

/-- grafana_dashboard, translated from the source.  env is the value of
the GRAFANA_URL environment variable; sharedDefault is the current
contents of the module-level mutable dictionary that is the default of
the variables parameter.  The result pairs the produced iframe Html with
the shared dictionary's contents after the call: when variables is
omitted the # @var- metadata of the content is written into the shared
dictionary and persists; when a dictionary is passed explicitly the
shared dictionary is untouched. -/
def grafanaDashboard (env : Option String) (sharedDefault : List (String × String))
    (a : GrafanaArgs) : Except String (String × List (String × String)) :=
  let metadata := extractMetadata a.content
  let urlR : Option String :=
    match a.url with
    | some u => some u
    | none =>
      match dictGet metadata "url" with
      | some u => some u
      | none => env
  match urlR with
  | none =>
    .error ("Grafana URL not provided. Either set the GRAFANA_URL " ++
      "environment variable, include a # @url: comment, or pass the url parameter.")
  | some url0 =>
    let url := rstripSlash url0
    let dashR : Option String :=
      match a.dashboard with
      | some d => some d
      | none => dictGet metadata "dashboard"
    match dashR with
    | none =>
      .error ("Dashboard ID not provided. Include a # @dashboard: comment " ++
        "or pass the dashboard parameter.")
    | some dashboard =>
      let fromTime :=
        match a.fromTime with
        | some f => f
        | none => (dictGet metadata "from").getD "now-6h"
      let toTime :=
        match a.toTime with
        | some t => t
        | none => (dictGet metadata "to").getD "now"
      let vars0 :=
        match a.varsArg with
        | some d => d
        | none => sharedDefault
      let vars := metadata.foldl
        (fun acc kv => if strStarts "var-".data kv.1.data then dictInsert acc kv.1 kv.2 else acc)
        vars0
      let newShared :=
        match a.varsArg with
        | some _ => sharedDefault
        | none => vars
      let dashboardUrl := url ++ "/d-solo/" ++ dashboard
      let params := [("orgId", "1"), ("from", fromTime), ("to", toTime),
        ("theme", a.theme), ("refresh", a.refresh)]
      let params2 := vars.foldl (fun acc kv => dictInsert acc kv.1 kv.2) params
      let queryString := urlencode params2
      let embedUrl := dashboardUrl ++ "?" ++ queryString
      let iframeHtml :=
        "\n    <div class=\"grafana-dashboard\" style=\"width: " ++ a.width ++
        "; height: " ++ a.height ++ "; margin: 0 auto;\">\n        <iframe \n            src=\"" ++
        embedUrl ++ "\" \n            width=\"100%\" \n            height=\"100%\" \n            frameborder=\"0\"\n            style=\"border: 1px solid #d3d3d3; border-radius: 4px;\"\n        ></iframe>\n    </div>\n    "
      .ok (iframeHtml, newShared)

/-! ### PromQL and LogQL query execution (promql.py, logql.py)

Translated from the source.  The HTTP call client.query either returns a
decoded JSON body or raises; a raised Python exception is either a
requests.RequestException or some other exception.  The body of the try
block and everything after it is modelled; the network call itself is the
function's argument. -/

/-- A Python exception raised by the HTTP request: a requests
RequestException, or any other exception (carrying its class name). -/
inductive PyError where
  | requestException (msg : String)
  | otherException (cls msg : String)

/-- Value stored under a key of a JSON object, none when the value is not
an object or lacks the key (dict.get). -/
def jGetObj (v : JsonValue) (k : String) : Option JsonValue :=
  match v with
  | .jObj kvs => lookupExact k kvs
  | _ => none

/-- Elements of a JSON array spine as an ordinary list. -/
def elemsToList : JsonElems → List JsonValue
  | .nil => []
  | .cons v rest => v :: elemsToList rest

/-- Entries of a JSON object spine as an ordinary association list. -/
def entriesToList : JsonEntries → List (String × JsonValue)
  | .nil => []
  | .cons k v rest => (k, v) :: entriesToList rest

/-- Python str() of a decoded JSON scalar as it appears inside an
f-string label. -/
def strOfJson : JsonValue → String
  | .jStr s => s
  | .jInt n => toString n
  | .jFloat q => toString q
  | .jBool b => if b then "True" else "False"
  | .jNull => "None"
  | .jArr xs => "[" ++ renderElems xs ++ "]"
  | .jObj kvs => "\x7b" ++ renderEntries kvs ++ "\x7d"

/-- Series name built from a metric label set: the __name__ label (or
"value"), followed by the remaining labels as k="v" pairs inside braces. -/
def seriesNameOf (metric : List (String × JsonValue)) : String :=
  let mname :=
    match metric.find? (fun p => p.1 == "__name__") with
    | some p => strOfJson p.2
    | none => "value"
  let labels := joinComma
    ((metric.filter (fun p => !(p.1 == "__name__"))).map
      (fun p => p.1 ++ "=\"" ++ strOfJson p.2 ++ "\""))
  if labels == "" then mname else mname ++ "\x7b" ++ labels ++ "\x7d"

/-- Row of the dataframe promql builds: a raw timestamp, a raw value and
the series name (timestamps stay as the raw JSON numbers; the
pandas datetime conversion is presentation only). -/
structure DfRow where
  time : JsonValue
  value : JsonValue
  metric : String

/-- Metric label set of one series or point (series.get of metric, or
an empty mapping). -/
def metricOf (series : JsonValue) : List (String × JsonValue) :=
  match jGetObj series "metric" with
  | some (.jObj m) => entriesToList m
  | _ => []

/-- Time/value pairs of one series (series.get of values, or an empty
list); pairs of the wrong shape are skipped. -/
def valuesOf (series : JsonValue) : List JsonValue :=
  match jGetObj series "values" with
  | some (.jArr vs) => elemsToList vs
  | _ => []

/-- _convert_prometheus_result_to_df, translated from promql.py: matrix
results flatten every series' time/value pairs, vector results take each
point's single pair, scalar and string results produce one row named
"scalar", anything else an empty frame. -/
def convertPrometheusResultToDf (data : JsonValue) : List DfRow :=
  let dataList : List JsonValue :=
    match jGetObj data "result" with
    | some (.jArr xs) => elemsToList xs
    | _ => []
  if dataList.isEmpty then []
  else
    match jGetObj data "resultType" with
    | some (.jStr "matrix") =>
      dataList.flatMap (fun series =>
        let sname := seriesNameOf (metricOf series)
        (valuesOf series).filterMap (fun pair =>
          match pair with
          | .jArr (.cons t (.cons v .nil)) => some { time := t, value := v, metric := sname }
          | _ => none))
    | some (.jStr "vector") =>
      dataList.filterMap (fun point =>
        let sname := seriesNameOf (metricOf point)
        match jGetObj point "value" with
        | some (.jArr (.cons t (.cons v .nil))) =>
          some { time := t, value := v, metric := sname }
        | _ => none)
    | some (.jStr "scalar") | some (.jStr "string") =>
      match jGetObj data "result" with
      | some (.jArr (.cons t (.cons v .nil))) => [{ time := t, value := v, metric := "scalar" }]
      | _ => []
    | _ => []

/-- Outcome of a promql call as seen by the caller: a returned dataframe,
a returned Html error element, a raised RuntimeError, or an exception the
function did not catch. -/
inductive PromqlOutcome where
  | dataframe (rows : List DfRow)
  | htmlError (html : String)
  | runtimeError (msg : String)
  | uncaught (e : PyError)

/-- Outcome of the try/except around client.query in promql (promql.py):
on success the decoded body's data is converted to a dataframe and
returned; a requests.RequestException becomes an Html error element when
output is true and a RuntimeError otherwise; any other exception
propagates uncaught. -/
def promqlHandleQuery (output : Bool) (queryResult : Except PyError JsonValue) : PromqlOutcome :=
  match queryResult with
  | .ok res =>
    .dataframe (convertPrometheusResultToDf ((jGetObj res "data").getD (.jObj .nil)))
  | .error (.requestException m) =>
    let errorMessage := "Error querying Prometheus: " ++ m
    if output then .htmlError ("<div class=\"promql-error\">" ++ (errorMessage ++ "</div>"))
    else .runtimeError errorMessage
  | .error (.otherException cls m) => .uncaught (.otherException cls m)

/-- Whether a decoded JSON value is one of str, int, float, bool or None
(the isinstance filter applied to parsed log fields in logql.py). -/
def isScalarJson : JsonValue → Bool
  | .jStr _ => true
  | .jInt _ => true
  | .jFloat _ => true
  | .jBool _ => true
  | .jNull => true
  | _ => false

/-- _parse_json_log, translated from logql.py, with the JSON text decoder
passed in as a primitive (none models a JSONDecodeError): a log line that
decodes to an object yields its entries, a failed decode yields a
singleton message mapping, and a non-string log raises TypeError, also
yielding the singleton mapping. -/
def parseJsonLog (jsonLoads : String → Option JsonValue) (log : JsonValue) :
    List (String × JsonValue) :=
  match log with
  | .jStr s =>
    match jsonLoads s with
    | some (.jObj kvs) => entriesToList kvs
    | some _ => []
    | none => [("message", log)]
  | other => [("message", other)]

/-- Row of the log-stream dataframe logql builds: raw timestamp, rendered
label string, the raw log line, and the scalar parsed-log fields under
log.-prefixed column names. -/
structure LokiRow where
  timestamp : JsonValue
  labels : String
  rawLog : JsonValue
  logFields : List (String × JsonValue)

/-- Dataframe logql builds: log-stream rows, metric matrix rows of
timestamp/value/labels, or the empty frame. -/
inductive LokiDf where
  | streamRows (rows : List LokiRow)
  | matrixRows (rows : List (JsonValue × JsonValue × String))
  | empty

/-- Labels of a stream or series rendered as comma-joined k="v" pairs. -/
def lokiLabelsStr (labels : List (String × JsonValue)) : String :=
  joinComma (labels.map (fun p => p.1 ++ "=\"" ++ strOfJson p.2 ++ "\""))

/-- _convert_loki_result_to_df, translated from logql.py. -/
def convertLokiResultToDf (jsonLoads : String → Option JsonValue) (result : JsonValue) : LokiDf :=
  let data := (jGetObj result "data").getD (.jObj .nil)
  match jGetObj data "resultType" with
  | some (.jStr "streams") =>
    let streams : List JsonValue :=
      match jGetObj data "result" with
      | some (.jArr xs) => elemsToList xs
      | _ => []
    let rows := streams.flatMap (fun stream =>
      let labelsStr := lokiLabelsStr
        (match jGetObj stream "stream" with
         | some (.jObj m) => entriesToList m
         | _ => [])
      let entries :=
        match jGetObj stream "values" with
        | some (.jArr vs) => elemsToList vs
        | _ => []
      entries.filterMap (fun entry =>
        match entry with
        | .jArr (.cons ts (.cons log .nil)) =>
          some { timestamp := ts, labels := labelsStr, rawLog := log,
                 logFields := ((parseJsonLog jsonLoads log).filter
                   (fun p => isScalarJson p.2)).map (fun p => ("log." ++ p.1, p.2)) }
        | _ => none))
    if rows.isEmpty then .empty else .streamRows rows
  | some (.jStr "matrix") =>
    let seriesList : List JsonValue :=
      match jGetObj data "result" with
      | some (.jArr xs) => elemsToList xs
      | _ => []
    let rows := seriesList.flatMap (fun series =>
      let labelsStr := lokiLabelsStr (metricOf series)
      (valuesOf series).filterMap (fun pair =>
        match pair with
        | .jArr (.cons t (.cons v .nil)) => some (t, v, labelsStr)
        | _ => none))
    if rows.isEmpty then .empty else .matrixRows rows
  | _ => .empty

/-- Outcome of a logql call as seen by the caller. -/
inductive LogqlOutcome where
  | dataframe (df : LokiDf)
  | htmlError (html : String)
  | runtimeError (msg : String)
  | uncaught (e : PyError)

/-- Outcome of the try/except around client.query in logql (logql.py):
the same routing as promql with the Loki error text and css class. -/
def logqlHandleQuery (jsonLoads : String → Option JsonValue) (output : Bool)
    (queryResult : Except PyError JsonValue) : LogqlOutcome :=
  match queryResult with
  | .ok res => .dataframe (convertLokiResultToDf jsonLoads res)
  | .error (.requestException m) =>
    let errorMessage := "Error querying Loki: " ++ m
    if output then .htmlError ("<div class=\"logql-error\">" ++ (errorMessage ++ "</div>"))
    else .runtimeError errorMessage
  | .error (.otherException cls m) => .uncaught (.otherException cls m)

/-! ### Auxiliary predicates used by the statements -/

/-- One string occurs inside another: the character list of the message
splits as a prefix, the substring and a suffix. -/
def strMentions (msg sub : String) : Prop :=
  ∃ a b, msg.data = a ++ (sub.data ++ b)

/-- Substring search over character lists, evaluable by kernel reduction. -/
def containsSub : List Char → List Char → Bool
  | [], sub => strStarts sub []
  | c :: t, sub => strStarts sub (c :: t) || containsSub t sub

/-- First value stored under a key of a record instance or mapping value. -/
def ventLookup (k : String) : VEntries → Option Value
  | .nil => none
  | .cons k2 v rest => if k2 == k then some v else ventLookup k rest

/-- A key/value pair occurs among the entries of an instance. -/
def ventPairMem (f : String) (v : Value) : VEntries → Prop
  | .nil => False
  | .cons k w rest => (f = k ∧ v = w) ∨ ventPairMem f v rest

/-- Concatenation of alternative lists. -/
def altsApp : Alts → Alts → Alts
  | .nil, ys => ys
  | .cons x xs, ys => .cons x (altsApp xs ys)

/-- None of the alternatives is selected by the discriminator value. -/
def altsNoneMatch (dfield : String) (dval : JsonValue) : Alts → Prop
  | .nil => True
  | .cons a rest => matchesDiscrim dfield dval a = false ∧ altsNoneMatch dfield dval rest

/-- Every alternative fails to parse the value. -/
def altsAllFail (allow : Bool) (path : String) (v : JsonValue) : Alts → Prop
  | .nil => True
  | .cons a rest =>
    (∃ e, parseValue allow path a v = .error e) ∧ altsAllFail allow path v rest

/-- Whether a type expression is a record type. -/
def isRecordB : TypeExpr → Bool
  | .tRecord _ _ => true
  | _ => false

/-- Whether every alternative of a union is a record type. -/
def allRecordsB : Alts → Bool
  | .nil => true
  | .cons a rest => isRecordB a && allRecordsB rest

/-- Number of values in a parsed sequence. -/
def valuesLen : Values → Nat
  | .nil => 0
  | .cons _ rest => valuesLen rest + 1

/-! ### Concrete fixtures used by the witnesses

These mirror the dataclasses of the vendored test suite
(tests/_utils/test_parse_dataclass.py): Config, ConfigOne, ConfigTwo, the
AnimalType enumeration and the discriminated Dog and Cat records. -/

/-- Field list of the Config dataclass (disabled: bool, gpu: bool). -/
def cfgFields : Fields := .cons "disabled" .tBool none (.cons "gpu" .tBool none .nil)

/-- Type descriptor of Config. -/
def cfgTy : TypeExpr := .tRecord "Config" cfgFields

/-- Type descriptor of ConfigOne (disabled: bool). -/
def c1Ty : TypeExpr := .tRecord "ConfigOne" (.cons "disabled" .tBool none .nil)

/-- Type descriptor of ConfigTwo (gpu: bool). -/
def c2Ty : TypeExpr := .tRecord "ConfigTwo" (.cons "gpu" .tBool none .nil)

/-- Constants of the AnimalType enumeration with their backing strings. -/
def animalConsts : List (String × Prim) := [("DOG", .pStr "dog"), ("CAT", .pStr "cat")]

/-- Type descriptor of Dog (type: Literal[AnimalType.DOG], bark: bool). -/
def dogTy : TypeExpr := .tRecord "Dog"
  (.cons "type" (.tLiteral "AnimalType" "DOG" (.pStr "dog")) none
    (.cons "bark" .tBool none .nil))

/-- Type descriptor of Cat (type: Literal[AnimalType.CAT], meow: bool). -/
def catTy : TypeExpr := .tRecord "Cat"
  (.cons "type" (.tLiteral "AnimalType" "CAT" (.pStr "cat")) none
    (.cons "meow" .tBool none .nil))

/-- Alternatives of the discriminated union Union[Dog, Cat]. -/
def dcAlts : Alts := .cons dogTy (.cons catTy .nil)

/-- Field list of a composite record exercising the round-trip claim:
a nested record, a list of records, a string-keyed mapping of records,
a variable tuple of records and a fixed (str, Config) tuple. -/
def bigFields : Fields :=
  .cons "config" cfgTy none
    (.cons "configs" (.tList cfgTy) none
      (.cons "mapping" (.tDict cfgTy) none
        (.cons "var_tuple" (.tTupleVar cfgTy) none
          (.cons "fixed_tuple" (.tTupleFixed (.cons .tStr (.cons cfgTy .nil))) none .nil))))

/-- A Config instance with the given flags. -/
def cfgVal (d g : Bool) : Value :=
  .vRecord "Config" (.cons "disabled" (.vBool d) (.cons "gpu" (.vBool g) .nil))

/-- Entry list of a fully populated composite instance. -/
def bigEntries : VEntries :=
  .cons "config" (cfgVal true false)
    (.cons "configs" (.vList (.cons (cfgVal true false) (.cons (cfgVal false true) .nil)))
      (.cons "mapping" (.vDict (.cons "0" (cfgVal true false) (.cons "1" (cfgVal false true) .nil)))
        (.cons "var_tuple" (.vTuple (.cons (cfgVal true false) (.cons (cfgVal false true) .nil)))
          (.cons "fixed_tuple" (.vTuple (.cons (.vStr "0") (.cons (cfgVal true false) .nil))) .nil))))

/-- Content of a grafana_dashboard call carrying a # @var- metadata comment. -/
def grafanaContentVar : String :=
  "# @url: http://grafana.example\n# @dashboard: app\n# @var-instance: server1"

/-- Content of a grafana_dashboard call carrying no # @var- metadata. -/
def grafanaContentPlain : String :=
  "# @url: http://grafana.example\n# @dashboard: app"

/-! ## Theorems

Shared unfolding lemmas for the mutual parser, followed by one theorem
per claim (with a witness where the theorem carries hypotheses). -/

theorem parse_eq_parseValue (name : String) (fields : Fields) (payload : JsonValue) (allow : Bool) :
    parse name fields payload allow = parseValue allow "" (.tRecord name fields) payload := rfl

theorem parseValue_tRecord_obj (allow : Bool) (path name : String) (fs : Fields) (kvs : JsonEntries) :
    parseValue allow path (.tRecord name fs) (.jObj kvs) =
      (parseFields allow path name fs kvs).bind (fun flds =>
        if allow then .ok (.vRecord name flds)
        else
          match unknownKeysOf fs kvs with
          | [] => .ok (.vRecord name flds)
          | ks => .error (.unknownKeys path ks name)) := rfl

theorem parseValue_tRecord_nonObj (allow : Bool) (path name : String) (fs : Fields)
    (v : JsonValue) (h : isObj v = false) :
    parseValue allow path (.tRecord name fs) v = .error (.notAMapping path v) := by
  cases v <;> first | rfl | simp [isObj] at h

theorem parseValue_tEnum_eq (allow : Bool) (path ename : String)
    (consts : List (String × Prim)) (v : JsonValue) :
    parseValue allow path (.tEnum ename consts) v =
      match findEnumConst v consts with
      | some c => .ok (.vEnum ename c)
      | none => .error (.invalidEnumValue path v (consts.map Prod.snd)) := rfl

theorem parseValue_tUnion_plain (allow : Bool) (path : String) (alts : Alts) (v : JsonValue)
    (h : discriminatorField alts = none) :
    parseValue allow path (.tUnion alts) v =
      tryAlts (.unionMismatch path (altNames alts) v) allow path alts v := by
  simp only [parseValue, h]

theorem parseValue_tUnion_disc (allow : Bool) (path df : String) (alts : Alts)
    (kvs : JsonEntries) (h : discriminatorField alts = some df) :
    parseValue allow path (.tUnion alts) (.jObj kvs) =
      dispatchDiscrim
        (.invalidDiscriminator path df ((lookupExact df kvs).getD .jNull) (validBackings df alts))
        allow path df ((lookupExact df kvs).getD .jNull) alts (.jObj kvs) := by
  simp only [parseValue, h]

theorem parseFields_nil_eq (allow : Bool) (path name : String) (kvs : JsonEntries) :
    parseFields allow path name .nil kvs = .ok .nil := rfl

theorem parseFields_cons_eq (allow : Bool) (path name f : String) (t : TypeExpr)
    (dflt : Option Value) (rest : Fields) (kvs : JsonEntries) :
    parseFields allow path name (.cons f t dflt rest) kvs =
      match lookupField f kvs with
      | some u => do
        let v ← parseValue allow (childPath path f) t u
        let vs ← parseFields allow path name rest kvs
        .ok (.cons f v vs)
      | none =>
        match dflt with
        | some d => (parseFields allow path name rest kvs).map (.cons f d)
        | none => .error (.missingRequiredField (childPath path f) f name) := rfl

/-- C8: field lookup accepts, besides the exact snake_case name, a key
that is case-insensitively the PascalCase rendering of the field name:
parsing the payload with keys MyVariable and MyOtherVariable against a
record with fields my_variable: str and my_other_variable: int succeeds
with my_variable bound to "0" and my_other_variable bound to 1. -/
theorem spec_c8_pascal_case_keys :
    parse "Flat" (.cons "my_variable" .tStr none (.cons "my_other_variable" .tInt none .nil))
      (.jObj (.cons "MyVariable" (.jStr "0") (.cons "MyOtherVariable" (.jInt 1) .nil))) false
    = .ok (.vRecord "Flat" (.cons "my_variable" (.vStr "0")
        (.cons "my_other_variable" (.vInt 1) .nil))) := rfl

/-- C3: for every target record type and either setting of the
unknown-keys flag, a payload that is anything other than a mapping makes
parse fail with the not-a-mapping (needs to be a dictionary) error, whose
message identifies the received type; no instance is returned. -/
theorem spec_c3_non_mapping_payload (name : String) (fields : Fields) (payload : JsonValue)
    (allow : Bool) (h : isObj payload = false) :
    parse name fields payload allow = .error (.notAMapping "" payload)
    ∧ strMentions (errMsg (.notAMapping "" payload)) (typeName payload) := by
  refine ⟨?_, ?_⟩
  · rw [parse_eq_parseValue]
    exact parseValue_tRecord_nonObj allow "" name fields payload h
  · exact ⟨("invalid payload at '" ++ ("" ++ ("': value " ++ (renderJson payload ++ " of type ")))).data,
      " needs to be a dictionary".data, by simp [errMsg, List.append_assoc]⟩

/-- Witness for C3 at the test's payload: a JSON string against ConfigOne. -/
theorem spec_c3_non_mapping_payload_witness :
    isObj (.jStr "string") = false
    ∧ (parse "ConfigOne" (.cons "disabled" .tBool none .nil) (.jStr "string") false
        = .error (.notAMapping "" (.jStr "string"))
      ∧ strMentions (errMsg (.notAMapping "" (.jStr "string"))) (typeName (.jStr "string"))) :=
  ⟨rfl, spec_c3_non_mapping_payload "ConfigOne" (.cons "disabled" .tBool none .nil)
    (.jStr "string") false rfl⟩

set_option maxRecDepth 80000 in
/-- C9: grafana_dashboard is not deterministic across calls when the
variables argument is left at its default: the default is one shared
mutable dictionary, a call whose content carries # @var- metadata writes
it into that dictionary, and a later call with identical arguments
(variables omitted) picks the entry up, embeds it in its iframe URL and
returns different Html than the same call against the pristine shared
dictionary. -/
theorem spec_c9_grafana_shared_default :
    ∃ h1 h2 h3,
      grafanaDashboard none [] (grafanaDefaults grafanaContentVar)
        = .ok (h1, [("var-instance", "server1")])
      ∧ grafanaDashboard none [("var-instance", "server1")] (grafanaDefaults grafanaContentPlain)
          = .ok (h2, [("var-instance", "server1")])
      ∧ grafanaDashboard none [] (grafanaDefaults grafanaContentPlain) = .ok (h3, [])
      ∧ containsSub h2.data "var-instance=server1".data = true
      ∧ containsSub h3.data "var-instance=server1".data = false
      ∧ h2 ≠ h3 := by
  refine ⟨_, _, _, rfl, rfl, rfl, ?_, ?_, ?_⟩ <;> decide

/-- C10: when the HTTP request raises a requests.RequestException, promql
(and likewise logql) with output true returns an Html error element —
rather than raising and rather than returning a dataframe — and with
output false raises a RuntimeError wrapping the message; any other
exception class is not caught and propagates. -/
theorem spec_c10_query_error_handling (m cls emsg : String) (output : Bool)
    (jsonLoads : String → Option JsonValue) :
    promqlHandleQuery true (.error (.requestException m))
      = .htmlError ("<div class=\"promql-error\">" ++ (("Error querying Prometheus: " ++ m) ++ "</div>"))
    ∧ promqlHandleQuery false (.error (.requestException m))
        = .runtimeError ("Error querying Prometheus: " ++ m)
    ∧ promqlHandleQuery output (.error (.otherException cls emsg))
        = .uncaught (.otherException cls emsg)
    ∧ logqlHandleQuery jsonLoads true (.error (.requestException m))
        = .htmlError ("<div class=\"logql-error\">" ++ (("Error querying Loki: " ++ m) ++ "</div>"))
    ∧ logqlHandleQuery jsonLoads false (.error (.requestException m))
        = .runtimeError ("Error querying Loki: " ++ m)
    ∧ logqlHandleQuery jsonLoads output (.error (.otherException cls emsg))
        = .uncaught (.otherException cls emsg) :=
  ⟨rfl, rfl, rfl, rfl, rfl, rfl⟩

theorem findEnumConst_skip (v : JsonValue) (pre rest : List (String × Prim))
    (h : ∀ p ∈ pre, primEqJson p.2 v = false) :
    findEnumConst v (pre ++ rest) = findEnumConst v rest := by
  induction pre with
  | nil => rfl
  | cons p ps ih =>
    obtain ⟨c, b⟩ := p
    have hp : primEqJson b v = false := h (c, b) (by simp)
    simpa [findEnumConst, hp] using ih (fun q hq => h q (by simp [hq]))

/-- C6: for an enumeration-typed field, a payload value equal to the
backing primitive of some constant (and of none before it) parses to the
corresponding named enum constant — never the raw backing value — and a
value equal to no backing primitive fails with the invalid-enum-value
error whose message mentions the offending value. -/
theorem spec_c6_enum_field (allow : Bool) (path ename : String) (v : JsonValue) :
    (∀ (pre post : List (String × Prim)) (c : String) (b : Prim),
      (∀ p ∈ pre, primEqJson p.2 v = false) → primEqJson b v = true →
      parseValue allow path (.tEnum ename (pre ++ (c, b) :: post)) v = .ok (.vEnum ename c))
    ∧ (∀ consts : List (String × Prim),
      (∀ p ∈ consts, primEqJson p.2 v = false) →
      parseValue allow path (.tEnum ename consts) v
        = .error (.invalidEnumValue path v (consts.map Prod.snd))
      ∧ strMentions (errMsg (.invalidEnumValue path v (consts.map Prod.snd))) (renderJson v)) := by
  constructor
  · intro pre post c b hpre hb
    rw [parseValue_tEnum_eq, findEnumConst_skip v pre _ hpre]
    simp [findEnumConst, hb]
  · intro consts h
    have hnone : findEnumConst v consts = none := by
      induction consts with
      | nil => rfl
      | cons p ps ih =>
        obtain ⟨c, b⟩ := p
        have hp : primEqJson b v = false := h (c, b) (by simp)
        simpa [findEnumConst, hp] using ih (fun q hq => h q (by simp [hq]))
    refine ⟨by rw [parseValue_tEnum_eq, hnone], ?_⟩
    exact ⟨"invalid enum value ".data,
      (" at '" ++ (path ++ ("'; accepted values: " ++
        joinComma ((consts.map Prod.snd).map renderPrim)))).data,
      by simp [errMsg]⟩

/-- Witness for C6 at the test's enumeration: "cat" against AnimalType
parses to the CAT constant, "invalid" fails. -/
theorem spec_c6_enum_field_witness :
    parseValue false "" (.tEnum "AnimalType"
        ([("DOG", Prim.pStr "dog")] ++ ("CAT", Prim.pStr "cat") :: []))
      (.jStr "cat") = .ok (.vEnum "AnimalType" "CAT")
    ∧ parseValue false "" (.tEnum "AnimalType" animalConsts) (.jStr "invalid")
        = .error (.invalidEnumValue "" (.jStr "invalid") (animalConsts.map Prod.snd)) :=
  ⟨(spec_c6_enum_field false "" "AnimalType" (.jStr "cat")).1
      [("DOG", .pStr "dog")] [] "CAT" (.pStr "cat") (by decide) (by decide),
    ((spec_c6_enum_field false "" "AnimalType" (.jStr "invalid")).2 animalConsts (by decide)).1⟩

theorem dispatchDiscrim_skip (e : ParseError) (allow : Bool) (path df : String)
    (dval v : JsonValue) :
    ∀ (pre rest : Alts), altsNoneMatch df dval pre →
      dispatchDiscrim e allow path df dval (altsApp pre rest) v
        = dispatchDiscrim e allow path df dval rest v
  | .nil, _, _ => rfl
  | .cons a ps, rest, h => by
    have hrec := dispatchDiscrim_skip e allow path df dval v ps rest h.2
    simpa [altsApp, dispatchDiscrim, h.1] using hrec

theorem dispatchDiscrim_none (e : ParseError) (allow : Bool) (path df : String)
    (dval v : JsonValue) :
    ∀ alts : Alts, altsNoneMatch df dval alts →
      dispatchDiscrim e allow path df dval alts v = .error e
  | .nil, _ => rfl
  | .cons a ps, h => by
    have hrec := dispatchDiscrim_none e allow path df dval v ps h.2
    simpa [dispatchDiscrim, h.1] using hrec

/-- C4: for a union whose alternatives each declare a literal
discriminator field, a mapping whose discriminator value equals one
alternative's literal (and no earlier one's) parses exactly as that
alternative does — direct dispatch, no trial parsing of the others — and
a mapping whose discriminator value matches no alternative's literal
fails with the invalid-discriminator error, whose message mentions the
offending value. -/
theorem spec_c4_discriminated_union (allow : Bool) (path df : String) (alts : Alts)
    (kvs : JsonEntries) (u : JsonValue)
    (hdf : discriminatorField alts = some df) (hlk : lookupExact df kvs = some u) :
    (∀ pre a rest, alts = altsApp pre (.cons a rest) → altsNoneMatch df u pre →
        matchesDiscrim df u a = true →
        parseValue allow path (.tUnion alts) (.jObj kvs) = parseValue allow path a (.jObj kvs))
    ∧ (altsNoneMatch df u alts →
        parseValue allow path (.tUnion alts) (.jObj kvs)
          = .error (.invalidDiscriminator path df u (validBackings df alts))
        ∧ strMentions
            (errMsg (.invalidDiscriminator path df u (validBackings df alts))) (renderJson u)) := by
  have hbase := parseValue_tUnion_disc allow path df alts kvs hdf
  rw [hlk] at hbase
  simp only [Option.getD_some] at hbase
  constructor
  · rintro pre a rest rfl hpre hm
    rw [hbase, dispatchDiscrim_skip _ _ _ _ _ _ pre _ hpre]
    simp [dispatchDiscrim, hm]
  · intro hn
    refine ⟨by rw [hbase]; exact dispatchDiscrim_none _ _ _ _ _ _ alts hn, ?_⟩
    exact ⟨"invalid discriminator value ".data,
      (" for field '" ++ (df ++ ("' at '" ++ (path ++ ("'; valid values: " ++
        joinComma ((validBackings df alts).map renderPrim)))))).data,
      by simp [errMsg]⟩

/-- Witness for C4 at the test's union Union[Dog, Cat]: the payload with
discriminator "dog" dispatches to Dog and yields the Dog instance; the
payload with discriminator "cow" fails with the invalid-discriminator
error carrying "cow". -/
theorem spec_c4_discriminated_union_witness :
    (parseValue false "" (.tUnion dcAlts)
        (.jObj (.cons "type" (.jStr "dog") (.cons "bark" (.jBool true) .nil)))
      = parseValue false "" dogTy
        (.jObj (.cons "type" (.jStr "dog") (.cons "bark" (.jBool true) .nil))))
    ∧ parseValue false "" dogTy
        (.jObj (.cons "type" (.jStr "dog") (.cons "bark" (.jBool true) .nil)))
      = .ok (.vRecord "Dog" (.cons "type" (.vEnum "AnimalType" "DOG")
          (.cons "bark" (.vBool true) .nil)))
    ∧ parseValue false "" (.tUnion dcAlts)
        (.jObj (.cons "type" (.jStr "cow") (.cons "bark" (.jBool true) .nil)))
      = .error (.invalidDiscriminator "" "type" (.jStr "cow") (validBackings "type" dcAlts)) :=
  ⟨(spec_c4_discriminated_union false "" "type" dcAlts
      (.cons "type" (.jStr "dog") (.cons "bark" (.jBool true) .nil)) (.jStr "dog")
      (by decide) rfl).1 .nil dogTy (.cons catTy .nil) rfl trivial (by decide),
   rfl,
   ((spec_c4_discriminated_union false "" "type" dcAlts
      (.cons "type" (.jStr "cow") (.cons "bark" (.jBool true) .nil)) (.jStr "cow")
      (by decide) rfl).2 ⟨by decide, by decide, trivial⟩).1⟩

theorem tryAlts_skip (e : ParseError) (allow : Bool) (path : String) (v : JsonValue) :
    ∀ (pre rest : Alts), altsAllFail allow path v pre →
      tryAlts e allow path (altsApp pre rest) v = tryAlts e allow path rest v
  | .nil, _, _ => rfl
  | .cons a ps, rest, h => by
    obtain ⟨⟨err, herr⟩, hps⟩ := h
    have hrec := tryAlts_skip e allow path v ps rest hps
    simpa [altsApp, tryAlts, herr] using hrec

theorem tryAlts_fail (e : ParseError) (allow : Bool) (path : String) (v : JsonValue) :
    ∀ alts : Alts, altsAllFail allow path v alts → tryAlts e allow path alts v = .error e
  | .nil, _ => rfl
  | .cons a ps, h => by
    obtain ⟨⟨err, herr⟩, hps⟩ := h
    have hrec := tryAlts_fail e allow path v ps hps
    simpa [tryAlts, herr] using hrec

theorem allRecords_fail (allow : Bool) (path : String) (v : JsonValue) (hv : isObj v = false) :
    ∀ alts : Alts, allRecordsB alts = true → altsAllFail allow path v alts
  | .nil, _ => trivial
  | .cons a ps, h => by
    have h2 : isRecordB a = true ∧ allRecordsB ps = true := by
      simpa [allRecordsB, Bool.and_eq_true] using h
    refine ⟨?_, allRecords_fail allow path v hv ps h2.2⟩
    cases a with
    | tRecord n fs => exact ⟨.notAMapping path v, parseValue_tRecord_nonObj allow path n fs v hv⟩
    | _ => simp [isRecordB] at h2

/-- C5: for a plain (non-discriminated) union, the alternatives are tried
in declared order and the first success is the result; when every
alternative fails, parse fails with the union-mismatch error, whose
message mentions the offending value; and a non-mapping value makes every
alternative of a union of record types fail. -/
theorem spec_c5_plain_union (allow : Bool) (path : String) (v : JsonValue) (alts : Alts)
    (hnd : discriminatorField alts = none) :
    (∀ pre a rest r, alts = altsApp pre (.cons a rest) → altsAllFail allow path v pre →
        parseValue allow path a v = .ok r →
        parseValue allow path (.tUnion alts) v = .ok r)
    ∧ (altsAllFail allow path v alts →
        parseValue allow path (.tUnion alts) v
          = .error (.unionMismatch path (altNames alts) v)
        ∧ strMentions (errMsg (.unionMismatch path (altNames alts) v)) (renderJson v))
    ∧ (allRecordsB alts = true → isObj v = false → altsAllFail allow path v alts) := by
  have hbase := parseValue_tUnion_plain allow path alts v hnd
  refine ⟨?_, ?_, fun hr hv => allRecords_fail allow path v hv alts hr⟩
  · rintro pre a rest r rfl hpre hok
    rw [hbase, tryAlts_skip _ _ _ _ pre _ hpre]
    simp [tryAlts, hok]
  · intro hall
    refine ⟨by rw [hbase]; exact tryAlts_fail _ _ _ _ alts hall, ?_⟩
    exact ⟨"value ".data,
      (" at '" ++ (path ++ ("' does not match any alternative of Union[" ++
        (joinComma (altNames alts) ++ "]")))).data,
      by simp [errMsg]⟩

/-- Witness for C5 at the test's union Union[ConfigOne, ConfigTwo]: the
payload with only a gpu key fails ConfigOne and is accepted by ConfigTwo,
and the non-mapping payload "invalid" fails with the union-mismatch
error carrying it. -/
theorem spec_c5_plain_union_witness :
    parseValue false "" (.tUnion (.cons c1Ty (.cons c2Ty .nil)))
        (.jObj (.cons "gpu" (.jBool true) .nil))
      = .ok (.vRecord "ConfigTwo" (.cons "gpu" (.vBool true) .nil))
    ∧ parseValue false "" (.tUnion (.cons c1Ty (.cons c2Ty .nil))) (.jStr "invalid")
      = .error (.unionMismatch "" (altNames (.cons c1Ty (.cons c2Ty .nil))) (.jStr "invalid")) :=
  ⟨(spec_c5_plain_union false "" (.jObj (.cons "gpu" (.jBool true) .nil))
      (.cons c1Ty (.cons c2Ty .nil)) (by decide)).1
      (.cons c1Ty .nil) c2Ty .nil (.vRecord "ConfigTwo" (.cons "gpu" (.vBool true) .nil))
      rfl ⟨⟨.missingRequiredField "disabled" "disabled" "ConfigOne", rfl⟩, trivial⟩ rfl,
   (((spec_c5_plain_union false "" (.jStr "invalid")
      (.cons c1Ty (.cons c2Ty .nil)) (by decide)).2.1)
      ((spec_c5_plain_union false "" (.jStr "invalid")
        (.cons c1Ty (.cons c2Ty .nil)) (by decide)).2.2 (by decide) rfl)).1⟩

theorem lookupField_unknown_cons (f k : String) (v : JsonValue) (kvs : JsonEntries)
    (h : keyMatches k f = false) :
    lookupField f (.cons k v kvs) = lookupField f kvs := by
  have h2 : (k == f) = false ∧ (lowerStr k == lowerStr (snakeToPascal f)) = false := by
    simpa [keyMatches] using h
  simp [lookupField, lookupExact, lookupLowerEq, h2.1, h2.2]

theorem parseFields_unknown_cons (allow : Bool) (path name k : String) (v : JsonValue)
    (kvs : JsonEntries) :
    ∀ fields : Fields, keyKnownB k fields = false →
      parseFields allow path name fields (.cons k v kvs) = parseFields allow path name fields kvs
  | .nil, _ => rfl
  | .cons f t d rest, h => by
    have h2 : keyMatches k f = false ∧ keyKnownB k rest = false := by
      simpa [keyKnownB] using h
    rw [parseFields_cons_eq, parseFields_cons_eq, lookupField_unknown_cons f k v kvs h2.1,
      parseFields_unknown_cons allow path name k v kvs rest h2.2]

/-- Counterexample to C2 as stated: with the unknown-keys flag left at
its default (false), the empty record type rejects the mapping with the
single unknown key, exactly the situation the vendored
test_with_unknown_keys must pass allow_unknown_keys=True to make
succeed. -/
theorem spec_c2_unknown_keys_cex :
    parse "Empty" .nil (.jObj (.cons "key" (.jStr "value") .nil)) false
      = .error (.unknownKeys "" ["key"] "Empty") := rfl

/-- C2 (amended): unknown payload keys never cause parsing to fail when
allow_unknown_keys is passed as true — construction uses only the matched
fields, and in particular a record type with no fields then parses any
mapping — while with the flag left at its default (false) a payload whose
fields parse but which carries unknown keys is rejected with an
unknown-keys error listing them. -/
theorem spec_c2_unknown_keys_amended (name : String) :
    (∀ (fields : Fields) (k : String) (v : JsonValue) (kvs : JsonEntries),
      keyKnownB k fields = false →
      parse name fields (.jObj (.cons k v kvs)) true = parse name fields (.jObj kvs) true)
    ∧ (∀ kvs : JsonEntries, parse name .nil (.jObj kvs) true = .ok (.vRecord name .nil))
    ∧ (∀ (fields : Fields) (kvs : JsonEntries) (flds : VEntries) (k : String) (ks : List String),
      parseFields false "" name fields kvs = .ok flds →
      unknownKeysOf fields kvs = k :: ks →
      parse name fields (.jObj kvs) false = .error (.unknownKeys "" (k :: ks) name)) := by
  refine ⟨?_, fun kvs => rfl, ?_⟩
  · intro fields k v kvs h
    rw [parse_eq_parseValue, parse_eq_parseValue, parseValue_tRecord_obj, parseValue_tRecord_obj,
      parseFields_unknown_cons true "" name k v kvs fields h]
    simp
  · intro fields kvs flds k ks hpf hks
    rw [parse_eq_parseValue, parseValue_tRecord_obj, hpf]
    simp [Except.bind, hks]

/-- Witness for C2 (amended): adding the unknown key zzz leaves parsing
of Flat unchanged with the flag true, and with the flag false the Empty
record rejects the payload with the unknown key. -/
theorem spec_c2_unknown_keys_amended_witness :
    parse "Flat" (.cons "x" .tStr none .nil)
        (.jObj (.cons "zzz" (.jInt 1) (.cons "x" (.jStr "a") .nil))) true
      = parse "Flat" (.cons "x" .tStr none .nil) (.jObj (.cons "x" (.jStr "a") .nil)) true
    ∧ parse "Empty" .nil (.jObj (.cons "key" (.jStr "value") .nil)) false
      = .error (.unknownKeys "" ["key"] "Empty") :=
  ⟨(spec_c2_unknown_keys_amended "Flat").1 (.cons "x" .tStr none .nil) "zzz" (.jInt 1)
      (.cons "x" (.jStr "a") .nil) (by decide),
   (spec_c2_unknown_keys_amended "Empty").2.2 .nil (.cons "key" (.jStr "value") .nil)
      .nil "key" [] rfl rfl⟩

theorem unknownKeysOf_cons_field (f : String) (t : TypeExpr) (d : Option Value) (rest : Fields) :
    ∀ kvs : JsonEntries, unknownKeysOf rest kvs = [] →
      unknownKeysOf (.cons f t d rest) kvs = []
  | .nil, _ => rfl
  | .cons k w kvs2, h => by
    cases hk : keyKnownB k rest with
    | false => simp [unknownKeysOf, hk] at h
    | true =>
      have h2 : unknownKeysOf rest kvs2 = [] := by simpa [unknownKeysOf, hk] using h
      have hk2 : keyKnownB k (.cons f t d rest) = true := by simp [keyKnownB, hk]
      simp [unknownKeysOf, hk2, unknownKeysOf_cons_field f t d rest kvs2 h2]

/-- C7: for a declared field with no matching payload key, a present
default makes parsing succeed with the field bound to the default (in
particular an Optional field defaulting to the no-value state), and an
absent default makes parsing fail with the missing-required-field error,
whose message names the field and the target type. -/
theorem spec_c7_defaults_and_required (allow : Bool) (name f : String) (t : TypeExpr)
    (d : Value) (rest : Fields) (kvs : JsonEntries) (restFlds : VEntries)
    (hlk : lookupField f kvs = none) :
    (parse name rest (.jObj kvs) allow = .ok (.vRecord name restFlds) →
      parse name (.cons f t (some d) rest) (.jObj kvs) allow
        = .ok (.vRecord name (.cons f d restFlds)))
    ∧ (parse name (.cons f t none rest) (.jObj kvs) allow
        = .error (.missingRequiredField (childPath "" f) f name)
      ∧ strMentions (errMsg (.missingRequiredField (childPath "" f) f name)) f
      ∧ strMentions (errMsg (.missingRequiredField (childPath "" f) f name)) name) := by
  refine ⟨?_, ?_, ?_, ?_⟩
  · intro hrest
    rw [parse_eq_parseValue, parseValue_tRecord_obj] at hrest
    rw [parse_eq_parseValue, parseValue_tRecord_obj, parseFields_cons_eq, hlk]
    cases hpf : parseFields allow "" name rest kvs with
    | error e => rw [hpf] at hrest; simp [Except.bind] at hrest
    | ok flds =>
      rw [hpf] at hrest
      cases allow with
      | true =>
        have hflds : flds = restFlds := by
          simpa [Except.bind, Value.vRecord.injEq] using hrest
        subst hflds
        simp [Except.map, Except.bind]
      | false =>
        cases huk : unknownKeysOf rest kvs with
        | cons k2 ks2 => rw [huk] at hrest; simp [Except.bind] at hrest
        | nil =>
          rw [huk] at hrest
          simp only [Except.bind] at hrest
          have hflds : flds = restFlds := by simpa [Value.vRecord.injEq] using hrest
          subst hflds
          simp [Except.map, Except.bind, unknownKeysOf_cons_field f t (some d) rest kvs huk]
  · rw [parse_eq_parseValue, parseValue_tRecord_obj, parseFields_cons_eq, hlk]
    simp [Except.bind]
  · exact ⟨"missing required field '".data,
      ("' (at '" ++ (childPath "" f ++ ("') of " ++ name))).data, by simp [errMsg]⟩
  · exact ⟨("missing required field '" ++ (f ++ ("' (at '" ++ (childPath "" f ++ "') of ")))).data,
      [], by simp [errMsg]⟩

/-- Witness for C7 at the test's dataclasses: TestOptional with the x key
absent takes its None default, and ConfigOne with the disabled key absent
fails with the missing-required-field error. -/
theorem spec_c7_defaults_and_required_witness :
    parse "TestOptional" (.cons "x" (.tOptional .tStr) (some .vNone) .nil) (.jObj .nil) false
      = .ok (.vRecord "TestOptional" (.cons "x" .vNone .nil))
    ∧ parse "ConfigOne" (.cons "disabled" .tBool none .nil) (.jObj .nil) false
      = .error (.missingRequiredField (childPath "" "disabled") "disabled" "ConfigOne") :=
  ⟨(spec_c7_defaults_and_required false "TestOptional" "x" (.tOptional .tStr) .vNone
      .nil .nil .nil rfl).1 rfl,
   ((spec_c7_defaults_and_required false "ConfigOne" "disabled" .tBool .vNone
      .nil .nil .nil rfl).2).1⟩

theorem parseValue_tList_arr (allow : Bool) (path : String) (t : TypeExpr) (xs : JsonElems) :
    parseValue allow path (.tList t) (.jArr xs) =
      (parseElems (fun i u => parseValue allow (idxPath path i) t u) 0 xs).map .vList := rfl

theorem parseValue_tTupleVar_arr (allow : Bool) (path : String) (t : TypeExpr) (xs : JsonElems) :
    parseValue allow path (.tTupleVar t) (.jArr xs) =
      (parseElems (fun i u => parseValue allow (idxPath path i) t u) 0 xs).map .vTuple := rfl

theorem parseValue_tTupleFixed_arr (allow : Bool) (path : String) (ts : Alts) (xs : JsonElems) :
    parseValue allow path (.tTupleFixed ts) (.jArr xs) =
      if altsLen ts == elemsLen xs then (parseFixed allow path 0 ts xs).map .vTuple
      else .error (.tupleArityMismatch path (altsLen ts) (elemsLen xs)) := rfl

theorem parseValue_tDict_obj (allow : Bool) (path : String) (t : TypeExpr) (kvs : JsonEntries) :
    parseValue allow path (.tDict t) (.jObj kvs) =
      (parseDictVals (fun k u => parseValue allow (childPath path k) t u) kvs).map .vDict := rfl

theorem lookupExact_serialize (f : String) :
    ∀ es : VEntries, lookupExact f (serializeEntries es) = (ventLookup f es).map serialize
  | .nil => rfl
  | .cons k v rest => by
    cases hk : k == f with
    | true => simp [serializeEntries, lookupExact, ventLookup, hk]
    | false => simpa [serializeEntries, lookupExact, ventLookup, hk] using lookupExact_serialize f rest

theorem ventPairMem_names (f : String) (v : Value) :
    ∀ es : VEntries, ventPairMem f v es → f ∈ ventNames es
  | .cons k w rest, h => by
    cases h with
    | inl h2 => simp [ventNames, h2.1]
    | inr h2 => simp [ventNames]; exact Or.inr (ventPairMem_names f v rest h2)

theorem strElem_mem (x : String) : ∀ l : List String, strElem x l = true ↔ x ∈ l
  | [] => by simp [strElem]
  | y :: ys => by
    simp [strElem, Bool.or_eq_true, beq_iff_eq, strElem_mem x ys]

theorem ventLookup_mem_nodup (f : String) (v : Value) :
    ∀ es : VEntries, nodupKeys (ventNames es) = true → ventPairMem f v es →
      ventLookup f es = some v
  | .cons k w rest, hn, hm => by
    have hn2 : strElem k (ventNames rest) = false ∧ nodupKeys (ventNames rest) = true := by
      simpa [ventNames, nodupKeys, Bool.and_eq_true, Bool.not_eq_true'] using hn
    cases hm with
    | inl h2 =>
      obtain ⟨h3, h4⟩ := h2
      subst h3; subst h4
      simp [ventLookup]
    | inr h2 =>
      have hf : f ∈ ventNames rest := ventPairMem_names f v rest h2
      have hk : k ∉ ventNames rest := by
        intro hc
        rw [← strElem_mem] at hc
        simp [hn2.1] at hc
      have hfk : (k == f) = false := by
        apply beq_eq_false_iff_ne.2
        intro he
        exact hk (he ▸ hf)
      simpa [ventLookup, hfk] using ventLookup_mem_nodup f v rest hn2.2 h2

theorem lookupField_serialized (f : String) (v : Value) (es : VEntries)
    (h : ventLookup f es = some v) :
    lookupField f (serializeEntries es) = some (serialize v) := by
  simp [lookupField, lookupExact_serialize, h]

theorem conformsFields_names :
    ∀ (fs : VEntries) (tfs : Fields), conformsFieldsB fs tfs = true →
      ventNames fs = fieldNames tfs
  | .nil, .nil, _ => rfl
  | .nil, .cons _ _ _ _, h => Bool.noConfusion h
  | .cons _ _ _, .nil, h => Bool.noConfusion h
  | .cons k v vrest, .cons f t d frest, h => by
    have h2 : (k == f) = true ∧ conformsB v t = true ∧ conformsFieldsB vrest frest = true := by
      simpa [conformsFieldsB, Bool.and_eq_true, and_assoc] using h
    have hk : k = f := beq_iff_eq.1 h2.1
    simp [ventNames, fieldNames, hk, conformsFields_names vrest frest h2.2.2]

theorem keyKnownB_self :
    ∀ (tfs : Fields) (f : String), f ∈ fieldNames tfs → keyKnownB f tfs = true
  | .cons g t d rest, f, h => by
    rcases (by simpa [fieldNames] using h : f = g ∨ f ∈ fieldNames rest) with h2 | h2
    · subst h2
      simp [keyKnownB, keyMatches]
    · simp [keyKnownB, keyKnownB_self rest f h2]

theorem unknownKeysOf_serialized (tfs : Fields) :
    ∀ es : VEntries, (∀ k ∈ ventNames es, keyKnownB k tfs = true) →
      unknownKeysOf tfs (serializeEntries es) = []
  | .nil, _ => rfl
  | .cons k v rest, h => by
    have hk : keyKnownB k tfs = true := h k (by simp [ventNames])
    simpa [serializeEntries, unknownKeysOf, hk] using
      unknownKeysOf_serialized tfs rest (fun k2 hk2 => h k2 (by simp [ventNames, hk2]))

theorem conformsTupleB_len :
    ∀ (xs : Values) (ts : Alts), conformsTupleB xs ts = true → altsLen ts = valuesLen xs
  | .nil, .nil, _ => rfl
  | .nil, .cons _ _, h => Bool.noConfusion h
  | .cons _ _, .nil, h => Bool.noConfusion h
  | .cons x xr, .cons t tr, h => by
    have h2 : conformsB x t = true ∧ conformsTupleB xr tr = true := by
      simpa [conformsTupleB, Bool.and_eq_true] using h
    simp [altsLen, valuesLen, conformsTupleB_len xr tr h2.2]

theorem serializeValues_len : ∀ xs : Values, elemsLen (serializeValues xs) = valuesLen xs
  | .nil => rfl
  | .cons x xr => by simp [serializeValues, elemsLen, valuesLen, serializeValues_len xr]

mutual

theorem roundtripV (v : Value) :
    ∀ (t : TypeExpr) (allow : Bool) (path : String),
      conformsB v t = true → parseValue allow path t (serialize v) = .ok v :=
  match v with
  | .vStr _ => fun t _ _ h => by
    cases t <;> first | rfl | exact Bool.noConfusion h
  | .vInt _ => fun t _ _ h => by
    cases t <;> first | rfl | exact Bool.noConfusion h
  | .vFloat _ => fun t _ _ h => by
    cases t <;> first | rfl | exact Bool.noConfusion h
  | .vBool _ => fun t _ _ h => by
    cases t <;> first | rfl | exact Bool.noConfusion h
  | .vNone => fun t _ _ h => by
    cases t <;> exact Bool.noConfusion h
  | .vEnum _ _ => fun t _ _ h => by
    cases t <;> exact Bool.noConfusion h
  | .vList xs => fun t allow path h => by
    cases t <;> try exact Bool.noConfusion h
    rename_i te
    have hc : conformsValuesB xs te = true := by simpa [conformsB] using h
    rw [show serialize (.vList xs) = .jArr (serializeValues xs) from rfl,
      parseValue_tList_arr, roundtripElems xs te allow path hc 0]
    rfl
  | .vTuple xs => fun t allow path h => by
    cases t <;> try exact Bool.noConfusion h
    case tTupleVar te =>
      have hc : conformsValuesB xs te = true := by simpa [conformsB] using h
      rw [show serialize (.vTuple xs) = .jArr (serializeValues xs) from rfl,
        parseValue_tTupleVar_arr, roundtripElems xs te allow path hc 0]
      rfl
    case tTupleFixed ts =>
      have hc : conformsTupleB xs ts = true := by simpa [conformsB] using h
      have hlen : altsLen ts = valuesLen xs := conformsTupleB_len xs ts hc
      rw [show serialize (.vTuple xs) = .jArr (serializeValues xs) from rfl,
        parseValue_tTupleFixed_arr]
      rw [serializeValues_len xs, hlen]
      simp only [beq_self_eq_true, if_true]
      rw [roundtripFixed xs ts allow path hc 0]
      rfl
  | .vDict es => fun t allow path h => by
    cases t <;> try exact Bool.noConfusion h
    rename_i te
    have hc : conformsEntriesB es te = true := by simpa [conformsB] using h
    rw [show serialize (.vDict es) = .jObj (serializeEntries es) from rfl,
      parseValue_tDict_obj, roundtripDict es te allow path hc]
    rfl
  | .vRecord n fs => fun t allow path h => by
    cases t <;> try exact Bool.noConfusion h
    rename_i n2 tfs
    have h3 : (n == n2) = true ∧ nodupKeys (fieldNames tfs) = true
        ∧ conformsFieldsB fs tfs = true := by
      simpa [conformsB, Bool.and_eq_true, and_assoc] using h
    obtain ⟨hname, hnd, hcf⟩ := h3
    have hname2 : n = n2 := beq_iff_eq.1 hname
    subst hname2
    have hnames := conformsFields_names fs tfs hcf
    have hndv : nodupKeys (ventNames fs) = true := by rw [hnames]; exact hnd
    have hl : ∀ f v2, ventPairMem f v2 fs →
        lookupField f (serializeEntries fs) = some (serialize v2) := by
      intro f v2 hm
      exact lookupField_serialized f v2 fs (ventLookup_mem_nodup f v2 fs hndv hm)
    rw [show serialize (.vRecord n fs) = .jObj (serializeEntries fs) from rfl,
      parseValue_tRecord_obj, roundtripFields fs tfs allow path n (serializeEntries fs) hcf hl]
    have huk : unknownKeysOf tfs (serializeEntries fs) = [] := by
      apply unknownKeysOf_serialized
      intro k hk
      exact keyKnownB_self tfs k (hnames ▸ hk)
    cases allow <;> simp [Except.bind, huk]

theorem roundtripFields (fs : VEntries) :
    ∀ (tfs : Fields) (allow : Bool) (path name : String) (kvs : JsonEntries),
      conformsFieldsB fs tfs = true →
      (∀ f v, ventPairMem f v fs → lookupField f kvs = some (serialize v)) →
      parseFields allow path name tfs kvs = .ok fs :=
  match fs with
  | .nil => fun tfs _ _ _ _ h _ => by
    cases tfs with
    | nil => rfl
    | cons _ _ _ _ => exact Bool.noConfusion h
  | .cons k v vrest => fun tfs allow path name kvs h hl => by
    cases tfs with
    | nil => exact Bool.noConfusion h
    | cons f t d frest =>
      have h3 : (k == f) = true ∧ conformsB v t = true
          ∧ conformsFieldsB vrest frest = true := by
        simpa [conformsFieldsB, Bool.and_eq_true, and_assoc] using h
      obtain ⟨hkf, hvt, hrest⟩ := h3
      have hkf2 : k = f := beq_iff_eq.1 hkf
      subst hkf2
      rw [parseFields_cons_eq, hl k v (Or.inl ⟨rfl, rfl⟩)]
      simp only [roundtripV v t allow (childPath path k) hvt,
        roundtripFields vrest frest allow path name kvs hrest
          (fun f2 v2 hm => hl f2 v2 (Or.inr hm))]
      rfl

theorem roundtripElems (xs : Values) :
    ∀ (t : TypeExpr) (allow : Bool) (path : String),
      conformsValuesB xs t = true → ∀ i : Nat,
      parseElems (fun j u => parseValue allow (idxPath path j) t u) i (serializeValues xs)
        = .ok xs :=
  match xs with
  | .nil => fun _ _ _ _ _ => rfl
  | .cons x xrest => fun t allow path h i => by
    have h2 : conformsB x t = true ∧ conformsValuesB xrest t = true := by
      simpa [conformsValuesB, Bool.and_eq_true] using h
    simp only [serializeValues, parseElems, roundtripV x t allow (idxPath path i) h2.1,
      roundtripElems xrest t allow path h2.2 (i + 1)]
    rfl

theorem roundtripFixed (xs : Values) :
    ∀ (ts : Alts) (allow : Bool) (path : String),
      conformsTupleB xs ts = true → ∀ i : Nat,
      parseFixed allow path i ts (serializeValues xs) = .ok xs :=
  match xs with
  | .nil => fun ts _ _ h _ => by
    cases ts with
    | nil => rfl
    | cons _ _ => exact Bool.noConfusion h
  | .cons x xrest => fun ts allow path h i => by
    cases ts with
    | nil => exact Bool.noConfusion h
    | cons t trest =>
      have h2 : conformsB x t = true ∧ conformsTupleB xrest trest = true := by
        simpa [conformsTupleB, Bool.and_eq_true] using h
      simp only [serializeValues, parseFixed, roundtripV x t allow (idxPath path i) h2.1,
        roundtripFixed xrest trest allow path h2.2 (i + 1)]
      rfl

theorem roundtripDict (es : VEntries) :
    ∀ (t : TypeExpr) (allow : Bool) (path : String),
      conformsEntriesB es t = true →
      parseDictVals (fun k u => parseValue allow (childPath path k) t u) (serializeEntries es)
        = .ok es :=
  match es with
  | .nil => fun _ _ _ _ => rfl
  | .cons k v rest => fun t allow path h => by
    have h2 : conformsB v t = true ∧ conformsEntriesB rest t = true := by
      simpa [conformsEntriesB, Bool.and_eq_true] using h
    simp only [serializeEntries, parseDictVals, roundtripV v t allow (childPath path k) h2.1,
      roundtripDict rest t allow path h2.2]
    rfl

end

/-- C1: a record instance whose fields hold type-conformant values —
including nested records, lists of records, string-keyed mappings of
records, variable tuples and fixed tuples — parses back from its JSON
serialization to an equal instance. -/
theorem spec_c1_record_roundtrip (name : String) (tfs : Fields) (fs : VEntries)
    (h : conformsB (.vRecord name fs) (.tRecord name tfs) = true) :
    parse name tfs (serialize (.vRecord name fs)) false = .ok (.vRecord name fs) := by
  rw [parse_eq_parseValue]
  exact roundtripV (.vRecord name fs) (.tRecord name tfs) false "" h

/-- Witness for C1 at a composite instance exercising every container of
the claim: a nested record, a list of records, a string-keyed mapping of
records, a variable tuple of records and a fixed (str, Config) tuple. -/
theorem spec_c1_record_roundtrip_witness :
    conformsB (.vRecord "Big" bigEntries) (.tRecord "Big" bigFields) = true
    ∧ parse "Big" bigFields (serialize (.vRecord "Big" bigEntries)) false
        = .ok (.vRecord "Big" bigEntries) :=
  ⟨rfl, spec_c1_record_roundtrip "Big" bigFields bigEntries rfl⟩

end MarimoObs
